import Mathlib

/-!
Verification of the V2V safety-signaling simulation (source: head.py).

The embedding models the Python source shallowly:
- Python floats are modelled as exact rationals (ℚ); every arithmetic
  operation the claims mention (max, +, *, abs, comparison) is exact.
- Randomness (random.gauss, random.uniform, time.time) is modelled by
  passing the drawn values in explicitly: a draw stream is a function
  from draw index to the realized value.
- The shared queue.Queue is modelled as a FIFO list of signals.
- Exceptions are modelled with Except; a caught exception corresponds to
  the Except.error case being discarded by the handler.
-/

attribute [local semireducible] Rat.add Rat.mul Rat.sub Rat.inv

set_option maxRecDepth 100000
set_option maxHeartbeats 1000000

/-- Accumulate a most-significant-bit-first bit list into a natural number;
models Python int(bitstring, 2). -/
def bitsToNat (bs : List Bool) : ℕ :=
  bs.foldl (fun a b => 2 * a + (if b then 1 else 0)) 0

/-- Minimal binary digits of n, most significant first, with a single 0 digit
for n = 0; models Python format(n, "b").  Fuel-based structural recursion
(fuel ≥ n suffices) so that concrete evaluation reduces in the kernel. -/
def binDigitsGo : ℕ → ℕ → List Bool
  | _, 0 => [false]
  | _, 1 => [true]
  | 0, _ => []
  | fuel + 1, n + 2 => binDigitsGo fuel ((n + 2) / 2) ++ [decide ((n + 2) % 2 = 1)]

/-- Binary digits of n, most significant first; models format(n, "b"). -/
def binDigits (n : ℕ) : List Bool := binDigitsGo n n

/-- Zero-pad the binary digits of n on the left to width 8;
models Python format(n, "08b") (for n ≥ 256 the result keeps all digits,
exactly as in Python). -/
def format08b (n : ℕ) : List Bool :=
  List.replicate (8 - (binDigits n).length) false ++ binDigits n

/-- Bit string of a text: 8 bits per character (more for code points ≥ 256),
most significant bit first; models "".join(format(ord(c), "08b") for c in s). -/
def stringBits (s : String) : List Bool :=
  (s.data.map (fun c => format08b c.toNat)).flatten

/-- Signal sample classification used by decode_message:
bit 1 exactly when |sample| > 1.5; models `"1" if abs(val) > 1.5 else "0"`. -/
def classify (v : ℚ) : Bool := decide ((3 : ℚ) / 2 < |v|)

/-- Chunking helper: split a list into consecutive groups of 8, the last group
possibly shorter; fuel-based structural recursion (fuel ≥ length suffices). -/
def chunksGo : ℕ → List α → List (List α)
  | _, [] => []
  | 0, _ => []
  | fuel + 1, a :: l => ((a :: l).take 8) :: chunksGo fuel ((a :: l).drop 8)

/-- Split a list into consecutive groups of 8, the last group possibly
shorter; models [bits[i:i+8] for i in range(0, len(bits), 8)]. -/
def chunksOf8 (l : List α) : List (List α) := chunksGo l.length l

/-- Classified bit sequence of a signal (one bit per sample). -/
def decodeBits (signal : List ℚ) : List Bool := signal.map classify

/-- Byte values extracted from a classified bit sequence: each complete
8-bit group is converted with int(·, 2); incomplete trailing groups are
dropped by the len(c) == 8 filter, exactly as in the source. -/
def codesOfBits (l : List Bool) : List ℕ :=
  (chunksOf8 l).filterMap
    (fun c => if c.length = 8 then some (bitsToNat c) else none)

/-- Byte values decoded from a signal. -/
def decodeCodes (signal : List ℚ) : List ℕ :=
  codesOfBits (decodeBits signal)

/-- Decoder; models decode_message.  Python chr(n) raises (caught by the
source's try/except, which returns "") exactly when n > 0x10FFFF; the guard
models that.  Complete 8-bit groups always give n < 256 (proved below), so
the guard never fails and Char.ofNat is exact on every reachable code. -/
def decode_message (signal : List ℚ) : String :=
  if (decodeCodes signal).all (fun n => n ≤ 1114111) then
    String.mk ((decodeCodes signal).map Char.ofNat)
  else ""

/-- Loop of encode_message over the bit list, carrying the bit index: the
i-th loop iteration emits the sample made of that iteration's two draws. -/
def encodeGo : ℕ → List Bool → (ℕ → ℚ × ℚ) → List ℚ
  | _, [], _ => []
  | i, _ :: bs, draws => ((draws i).1 + (draws i).2) :: encodeGo (i + 1) bs draws

/-- Encoder; models encode_message.  The draw stream gives, for bit index i,
the pair (base, extra) of realized Gaussian draws for that bit: the source
appends base + gauss(0,3) for a 1 bit and base + gauss(0,0.2) for a 0 bit,
i.e. each emitted sample is the sum of the two draws made for that bit,
whichever branch was taken. -/
def encode_message (s : String) (draws : ℕ → ℚ × ℚ) : List ℚ :=
  encodeGo 0 (stringBits s) draws

/-! Basic facts about the bit-level helpers. -/

theorem bitsToNat_append_singleton (l : List Bool) (b : Bool) :
    bitsToNat (l ++ [b]) = 2 * bitsToNat l + (if b then 1 else 0) := by
  simp [bitsToNat, List.foldl_append]

theorem bitsToNat_replicate_false (k : ℕ) (l : List Bool) :
    bitsToNat (List.replicate k false ++ l) = bitsToNat l := by
  induction k with
  | zero => simp
  | succ k ih =>
    simpa [bitsToNat, List.replicate_succ] using ih

theorem binDigitsGo_sound :
    ∀ fuel n, n ≤ fuel → bitsToNat (binDigitsGo fuel n) = n := by
  intro fuel
  induction fuel with
  | zero =>
    intro n hn
    interval_cases n <;> simp [binDigitsGo, bitsToNat]
  | succ fuel ih =>
    intro n hn
    match n with
    | 0 => simp [binDigitsGo, bitsToNat]
    | 1 => simp [binDigitsGo, bitsToNat]
    | n + 2 =>
      have hrec : (n + 2) / 2 ≤ fuel := by
        have h1 : (n + 2) / 2 < n + 2 := Nat.div_lt_self (by omega) (by omega)
        omega
      rw [binDigitsGo, bitsToNat_append_singleton, ih _ hrec]
      have := Nat.div_add_mod (n + 2) 2
      rcases Nat.mod_two_eq_zero_or_one (n + 2) with h | h <;> simp [h] <;> try omega

theorem bitsToNat_binDigits (n : ℕ) : bitsToNat (binDigits n) = n :=
  binDigitsGo_sound n n le_rfl

theorem binDigitsGo_length :
    ∀ fuel n k, n ≤ fuel → n < 2 ^ k → 0 < k → (binDigitsGo fuel n).length ≤ k := by
  intro fuel
  induction fuel with
  | zero =>
    intro n k hn _ hk
    have hn0 : n = 0 := by omega
    subst hn0
    simp only [binDigitsGo, List.length_singleton]
    omega
  | succ fuel ih =>
    intro n k hn hlt hk
    match n with
    | 0 =>
      simp only [binDigitsGo, List.length_singleton]
      omega
    | 1 =>
      simp only [binDigitsGo, List.length_singleton]
      omega
    | n + 2 =>
      have hrec : (n + 2) / 2 ≤ fuel := by
        have h1 : (n + 2) / 2 < n + 2 := Nat.div_lt_self (by omega) (by omega)
        omega
      have hk2 : 2 ≤ k := by
        by_contra h
        have hk1 : k = 1 := by omega
        subst hk1
        have h2 : (2 : ℕ) ^ 1 = 2 := by norm_num
        omega
      have hdiv : (n + 2) / 2 < 2 ^ (k - 1) := by
        rw [Nat.div_lt_iff_lt_mul (by omega)]
        calc n + 2 < 2 ^ k := hlt
        _ = 2 ^ (k - 1) * 2 := by
              rw [← pow_succ]
              congr 1
              omega
      have := ih ((n + 2) / 2) (k - 1) hrec hdiv (by omega)
      rw [binDigitsGo]
      simp only [List.length_append, List.length_singleton]
      omega

theorem binDigits_length_le (n : ℕ) (h : n < 256) : (binDigits n).length ≤ 8 :=
  binDigitsGo_length n n 8 le_rfl (by omega) (by omega)

theorem format08b_length (n : ℕ) (h : n < 256) : (format08b n).length = 8 := by
  have := binDigits_length_le n h
  simp [format08b]
  omega

theorem bitsToNat_format08b (n : ℕ) : bitsToNat (format08b n) = n := by
  rw [format08b, bitsToNat_replicate_false, bitsToNat_binDigits]

/-! Facts about chunking. -/

theorem chunksGo_fuel_irrel :
    ∀ f1 f2 (l : List α), l.length ≤ f1 → l.length ≤ f2 →
      chunksGo f1 l = chunksGo f2 l := by
  intro f1
  induction f1 with
  | zero =>
    intro f2 l h1 _
    have : l = [] := List.length_eq_zero.mp (by omega)
    subst this
    cases f2 <;> simp [chunksGo]
  | succ f1 ih =>
    intro f2 l h1 h2
    match l with
    | [] => cases f2 <;> simp [chunksGo]
    | a :: l =>
      match f2 with
      | 0 => simp at h2
      | f2 + 1 =>
        simp only [chunksGo]
        congr 1
        have hd : ((a :: l).drop 8).length = l.length + 1 - 8 := by simp
        have h1' : l.length + 1 ≤ f1 + 1 := by simpa using h1
        have h2' : l.length + 1 ≤ f2 + 1 := by simpa using h2
        apply ih
        · rw [hd]; omega
        · rw [hd]; omega

theorem chunksOf8_nil : chunksOf8 ([] : List α) = [] := rfl

theorem chunksOf8_cons_of_ne_nil (l : List α) (h : l ≠ []) :
    chunksOf8 l = l.take 8 :: chunksOf8 (l.drop 8) := by
  match l, h with
  | a :: l, _ =>
    have hd : ((a :: l).drop 8).length = l.length + 1 - 8 := by simp
    calc chunksOf8 (a :: l)
        = (a :: l).take 8 :: chunksGo l.length ((a :: l).drop 8) := rfl
      _ = (a :: l).take 8 :: chunksOf8 ((a :: l).drop 8) := by
          congr 1
          apply chunksGo_fuel_irrel
          · rw [hd]; omega
          · exact le_rfl

theorem chunksOf8_append8 (c rest : List α) (h : c.length = 8) :
    chunksOf8 (c ++ rest) = c :: chunksOf8 rest := by
  have hne : c ++ rest ≠ [] := by
    intro hc
    have := congrArg List.length hc
    simp [h] at this
  rw [chunksOf8_cons_of_ne_nil _ hne]
  congr 1
  · rw [← h, List.take_left]
  · rw [← h, List.drop_left]

/-! Facts about the extracted byte values. -/

theorem codesOfBits_short (l : List Bool) (h : l.length < 8) : codesOfBits l = [] := by
  match l with
  | [] => rfl
  | a :: t =>
    rw [codesOfBits, chunksOf8_cons_of_ne_nil _ (by simp)]
    have hdrop : (a :: t).drop 8 = [] := List.drop_eq_nil_of_le (by omega)
    have htake : (a :: t).take 8 = a :: t := List.take_of_length_le (by omega)
    rw [hdrop, htake]
    have hne : ¬ ((a :: t).length = 8) := by omega
    simp only [List.length_cons] at h
    simp [chunksOf8_nil, hne]
    omega

theorem codesOfBits_append8 (c rest : List Bool) (h : c.length = 8) :
    codesOfBits (c ++ rest) = bitsToNat c :: codesOfBits rest := by
  rw [codesOfBits, chunksOf8_append8 _ _ h, List.filterMap_cons, if_pos h]
  rfl

theorem codesOfBits_length_aux :
    ∀ n (l : List Bool), l.length ≤ n → (codesOfBits l).length = l.length / 8 := by
  intro n
  induction n with
  | zero =>
    intro l h
    have : l = [] := List.length_eq_zero.mp (by omega)
    subst this
    rfl
  | succ n ih =>
    intro l h
    rcases Nat.lt_or_ge l.length 8 with hlt | hge
    · rw [codesOfBits_short l hlt, Nat.div_eq_of_lt hlt]
      rfl
    · have h8 : (l.take 8).length = 8 := by
        rw [List.length_take]
        omega
      have hsplit : l.take 8 ++ l.drop 8 = l := List.take_append_drop 8 l
      have hd : (l.drop 8).length = l.length - 8 := by simp
      calc (codesOfBits l).length
          = (codesOfBits (l.take 8 ++ l.drop 8)).length := by rw [hsplit]
        _ = (codesOfBits (l.drop 8)).length + 1 := by
              rw [codesOfBits_append8 _ _ h8]
              simp
        _ = (l.drop 8).length / 8 + 1 := by rw [ih _ (by omega)]
        _ = l.length / 8 := by
              rw [hd, eq_comm]
              exact Nat.div_eq_sub_div (by omega) hge

theorem codesOfBits_length (l : List Bool) : (codesOfBits l).length = l.length / 8 :=
  codesOfBits_length_aux l.length l le_rfl

theorem bitsToNat_fold_lt (l : List Bool) :
    ∀ a, l.foldl (fun a b => 2 * a + (if b then 1 else 0)) a < (a + 1) * 2 ^ l.length := by
  induction l with
  | nil =>
    intro a
    simp
  | cons b l ih =>
    intro a
    have h1 := ih (2 * a + (if b then 1 else 0))
    have h2 : (2 * a + (if b then 1 else 0) + 1) * 2 ^ l.length ≤ (a + 1) * 2 ^ (b :: l).length := by
      have hb : 2 * a + (if b then 1 else 0) + 1 ≤ 2 * (a + 1) := by
        cases b <;> simp <;> omega
      calc (2 * a + (if b then 1 else 0) + 1) * 2 ^ l.length
          ≤ 2 * (a + 1) * 2 ^ l.length := Nat.mul_le_mul_right _ hb
        _ = (a + 1) * 2 ^ (b :: l).length := by
              rw [List.length_cons, pow_succ]
              ring
    calc (b :: l).foldl (fun a b => 2 * a + (if b then 1 else 0)) a
        = l.foldl (fun a b => 2 * a + (if b then 1 else 0)) (2 * a + (if b then 1 else 0)) := rfl
      _ < (2 * a + (if b then 1 else 0) + 1) * 2 ^ l.length := h1
      _ ≤ (a + 1) * 2 ^ (b :: l).length := h2

theorem bitsToNat_lt (l : List Bool) : bitsToNat l < 2 ^ l.length := by
  have := bitsToNat_fold_lt l 0
  simpa [bitsToNat] using this

theorem codesOfBits_lt_256 (l : List Bool) : ∀ n ∈ codesOfBits l, n < 256 := by
  intro n hn
  rw [codesOfBits, List.mem_filterMap] at hn
  obtain ⟨c, _, hif⟩ := hn
  by_cases hc : c.length = 8
  · rw [if_pos hc] at hif
    have hlt := bitsToNat_lt c
    rw [hc] at hlt
    have : bitsToNat c = n := Option.some.inj hif
    omega
  · rw [if_neg hc] at hif
    exact absurd hif (by simp)

theorem codesOfBits_take_aux :
    ∀ n (l : List Bool), l.length ≤ n →
      codesOfBits (l.take (8 * (l.length / 8))) = codesOfBits l := by
  intro n
  induction n with
  | zero =>
    intro l h
    have : l = [] := List.length_eq_zero.mp (by omega)
    subst this
    rfl
  | succ n ih =>
    intro l h
    rcases Nat.lt_or_ge l.length 8 with hlt | hge
    · rw [Nat.div_eq_of_lt hlt]
      rw [codesOfBits_short l hlt]
      rfl
    · have hdivstep : l.length / 8 = (l.length - 8) / 8 + 1 := Nat.div_eq_sub_div (by omega) hge
      have h8 : (l.take 8).length = 8 := by
        rw [List.length_take]
        omega
      have hd : (l.drop 8).length = l.length - 8 := by simp
      have htake : l.take (8 * (l.length / 8))
          = l.take 8 ++ (l.drop 8).take (8 * ((l.drop 8).length / 8)) := by
        rw [hdivstep, hd]
        rw [Nat.mul_add, Nat.mul_one, Nat.add_comm]
        exact List.take_add l 8 (8 * ((l.length - 8) / 8))
      rw [htake, codesOfBits_append8 _ _ h8, ih _ (by omega)]
      conv_rhs => rw [← List.take_append_drop 8 l]
      rw [codesOfBits_append8 _ _ h8]

theorem codesOfBits_take (l : List Bool) :
    codesOfBits (l.take (8 * (l.length / 8))) = codesOfBits l :=
  codesOfBits_take_aux l.length l le_rfl

/-! Characterization of decode_message. -/

theorem decodeCodes_lt_256 (signal : List ℚ) : ∀ n ∈ decodeCodes signal, n < 256 :=
  codesOfBits_lt_256 (decodeBits signal)

theorem decode_message_eq (signal : List ℚ) :
    decode_message signal = String.mk ((decodeCodes signal).map Char.ofNat) := by
  rw [decode_message, if_pos]
  rw [List.all_eq_true]
  intro n hn
  have := decodeCodes_lt_256 signal n hn
  simp
  omega

theorem decodeCodes_length (signal : List ℚ) :
    (decodeCodes signal).length = signal.length / 8 := by
  rw [decodeCodes, codesOfBits_length, decodeBits, List.length_map]

theorem decode_message_length (signal : List ℚ) :
    (decode_message signal).length = signal.length / 8 := by
  rw [decode_message_eq]
  show ((decodeCodes signal).map Char.ofNat).length = _
  rw [List.length_map, decodeCodes_length]

theorem decode_message_empty_iff (signal : List ℚ) :
    decode_message signal = "" ↔ signal.length < 8 := by
  constructor
  · intro h
    have := congrArg String.length h
    rw [decode_message_length] at this
    have h0 : signal.length / 8 = 0 := this
    by_contra hge
    have : 8 ≤ signal.length := by omega
    have := Nat.div_le_div_right (c := 8) this
    simp at this
    omega
  · intro h
    rw [decode_message_eq]
    have hlen : (decodeCodes signal).length = 0 := by
      rw [decodeCodes_length]
      exact Nat.div_eq_of_lt h
    have : decodeCodes signal = [] := List.length_eq_zero.mp hlen
    rw [this]
    rfl

/-- C10: decode_message is a total function returning exactly
⌊signal.length / 8⌋ characters; every complete 8-bit group yields a byte
value below 256 (hence always a valid character code, so the exception
branch returning "" is unreachable), and the empty string is returned
exactly when the signal has fewer than 8 samples. -/
theorem decode_total_valid (signal : List ℚ) :
    (decode_message signal).length = signal.length / 8 ∧
    (decodeCodes signal).all (fun n => n < 256) = true ∧
    (decode_message signal = "" ↔ signal.length < 8) := by
  refine ⟨decode_message_length signal, ?_, decode_message_empty_iff signal⟩
  rw [List.all_eq_true]
  intro n hn
  have := decodeCodes_lt_256 signal n hn
  simpa using this

/-- C7 counterexample: a 4-sample signal makes decode_message return the
empty-string failure result (so the listener discards it) even though no
byte value is out of the valid character range — there is no complete
8-bit group at all, so the list of byte values is empty.  Decoding can
therefore fail without any out-of-range byte value, refuting the claimed
"fails exactly when some byte value is out of range". -/
theorem decode_fail_without_invalid_byte :
    decode_message [0, 0, 0, 0] = "" ∧ decodeCodes [0, 0, 0, 0] = [] := by
  constructor <;> rfl

/-- C7 amended: every byte value a complete 8-bit group converts to is in
the valid character range (the guard modelling Python's chr validity always
passes, so the exception branch never fires), and decode_message returns
the empty-string failure result exactly when the signal has fewer than 8
samples — not when some byte is out of range. -/
theorem decode_never_invalid_byte (signal : List ℚ) :
    (decodeCodes signal).all (fun n => n ≤ 1114111) = true ∧
    (decode_message signal = "" ↔ signal.length < 8) := by
  refine ⟨?_, decode_message_empty_iff signal⟩
  rw [List.all_eq_true]
  intro n hn
  have := decodeCodes_lt_256 signal n hn
  simp
  omega

/-- C5: on a signal whose sample count is not a multiple of 8,
decode_message ignores the trailing incomplete group entirely (the result
equals the decode of the truncated signal that keeps only the complete
8-sample groups) and still returns one character per complete group;
the function is total, so no exception propagates. -/
theorem decode_truncates (signal : List ℚ) (h : ¬ (8 ∣ signal.length)) :
    decode_message signal = decode_message (signal.take (8 * (signal.length / 8))) ∧
    (decode_message signal).length = signal.length / 8 := by
  refine ⟨?_, decode_message_length signal⟩
  rw [decode_message_eq, decode_message_eq]
  have hbits : decodeBits (signal.take (8 * (signal.length / 8)))
      = (decodeBits signal).take (8 * (signal.length / 8)) := by
    rw [decodeBits, decodeBits, List.map_take]
  have hlen : signal.length = (decodeBits signal).length := by
    rw [decodeBits, List.length_map]
  rw [decodeCodes, decodeCodes, hbits, hlen, codesOfBits_take]

/-- C5 witness: a 9-sample signal (9 is not a multiple of 8). -/
theorem decode_truncates_witness :
    ¬ (8 ∣ ([2, 0, 0, 0, 0, 0, 0, 0, 0] : List ℚ).length) ∧
    (decode_message [2, 0, 0, 0, 0, 0, 0, 0, 0]
        = decode_message (([2, 0, 0, 0, 0, 0, 0, 0, 0] : List ℚ).take
            (8 * (([2, 0, 0, 0, 0, 0, 0, 0, 0] : List ℚ).length / 8))) ∧
      (decode_message [2, 0, 0, 0, 0, 0, 0, 0, 0]).length
        = ([2, 0, 0, 0, 0, 0, 0, 0, 0] : List ℚ).length / 8) :=
  ⟨by decide, decode_truncates [2, 0, 0, 0, 0, 0, 0, 0, 0] (by decide)⟩

/-! Round-trip of the codec. -/

theorem codesOfBits_flatten (blocks : List (List Bool)) (h : ∀ b ∈ blocks, b.length = 8) :
    codesOfBits blocks.flatten = blocks.map bitsToNat := by
  induction blocks with
  | nil => rfl
  | cons c bs ih =>
    rw [List.flatten_cons, codesOfBits_append8 _ _ (h c (by simp)), List.map_cons,
      ih (fun b hb => h b (by simp [hb]))]

theorem stringMk_data (s : String) : String.mk s.data = s := by
  cases s
  rfl

/-- Decoding any signal whose classified bit sequence equals the bit string
of a text s (with all code points below 256) recovers s exactly. -/
theorem decode_of_bits (signal : List ℚ) (s : String)
    (h256 : ∀ c ∈ s.data, c.toNat < 256)
    (hb : decodeBits signal = stringBits s) :
    decode_message signal = s := by
  rw [decode_message_eq, decodeCodes, hb, stringBits,
    codesOfBits_flatten _ (fun b hbm => by
      rw [List.mem_map] at hbm
      obtain ⟨c, hc, rfl⟩ := hbm
      exact format08b_length _ (h256 c hc))]
  have hmap : ((s.data.map (fun c => format08b c.toNat)).map bitsToNat).map Char.ofNat
      = s.data := by
    rw [List.map_map, List.map_map]
    conv_rhs => rw [← List.map_id s.data]
    apply List.map_congr_left
    intro c _
    simp only [Function.comp_apply, id_eq, bitsToNat_format08b, Char.ofNat_toNat]
  rw [hmap, stringMk_data]

/-- C2: codec round-trip.  The claim quantifies over STATUS and
EMERGENCY_BRAKE messages through their serialized text: for any serialized
text of printable ASCII characters, any encoding run in which each emitted
sample classifies back to the bit that produced it (|sample| > 1.5 exactly
for the bit-1 samples, which is what the hypothesis on the classified
sample sequence states) decodes to the exact serialized text — and a run
that reproduces the serialized text verbatim in particular reproduces the
message's type and sender_id fields. -/
theorem decode_encode_roundtrip (s : String) (draws : ℕ → ℚ × ℚ)
    (hprint : ∀ c ∈ s.data, 32 ≤ c.toNat ∧ c.toNat ≤ 126)
    (hclass : (encode_message s draws).map classify = stringBits s) :
    decode_message (encode_message s draws) = s :=
  decode_of_bits _ s (fun c hc => by have := hprint c hc; omega) hclass

/-- Draw stream that realizes, for every bit of s, a base draw adding up
with the branch draw to 2 for a 1 bit and to 0 for a 0 bit, so that every
sample classifies back to the bit that produced it. -/
def goodDraws (s : String) : ℕ → ℚ × ℚ :=
  fun i => (if (stringBits s).getD i false then 2 else 0, 0)

/-- C2 witness: the serialized EMERGENCY_BRAKE-style text for sender CarA,
with classification-faithful draws. -/
theorem decode_encode_roundtrip_witness :
    (∀ c ∈ "CarA".data, 32 ≤ c.toNat ∧ c.toNat ≤ 126) ∧
    (encode_message "CarA" (goodDraws "CarA")).map classify = stringBits "CarA" ∧
    decode_message (encode_message "CarA" (goodDraws "CarA")) = "CarA" :=
  ⟨by decide, by decide,
    decode_encode_roundtrip "CarA" (goodDraws "CarA") (by decide) (by decide)⟩

/-! Sensor model; models class VehicleSensors. -/

structure VehicleSensors where
  name : String
  speed : ℚ
  accel : ℚ
  braking : Bool
  hazard : String
deriving DecidableEq

/-- Initial sensor state; models VehicleSensors.__init__ (speed 25.0 m/s,
accel 0.0, braking False, hazard ""). -/
def VehicleSensors.start (name : String) : VehicleSensors :=
  ⟨name, 25, 0, false, ""⟩

/-- Update step; models VehicleSensors.update.  `drift` is the realized
random.uniform(-0.5, 0.5) draw, consumed only in the non-brake branch. -/
def VehicleSensors.update (s : VehicleSensors) (brake : Bool) (drift : ℚ) : VehicleSensors :=
  let s1 := if brake then { s with accel := -8, braking := true }
            else { s with accel := drift, braking := false }
  { s1 with speed := max 0 (s1.speed + s1.accel * (1 / 10)) }

/-- Fold of update over a finite sequence of (brake, drift) call arguments. -/
def runUpdates (s : VehicleSensors) (calls : List (Bool × ℚ)) : VehicleSensors :=
  calls.foldl (fun st c => st.update c.1 c.2) s

theorem update_speed_nonneg (s : VehicleSensors) (brake : Bool) (drift : ℚ) :
    0 ≤ (s.update brake drift).speed :=
  le_max_left 0 _

theorem update_name_eq (s : VehicleSensors) (brake : Bool) (drift : ℚ) :
    (s.update brake drift).name = s.name := by
  rw [VehicleSensors.update]
  cases brake <;> rfl

/-- C3: starting from any sensor state with nonnegative speed, the speed
field stays nonnegative after every update call of any finite call
sequence, with any brake arguments and any drawn acceleration values
(every intermediate state is runUpdates over a prefix of the calls, so
instantiating the theorem at each prefix covers "after every call").
Each update sets speed to max(0, speed + accel * 0.1), which is never
negative. -/
theorem speed_never_negative (s0 : VehicleSensors) (h : 0 ≤ s0.speed)
    (calls : List (Bool × ℚ)) : 0 ≤ (runUpdates s0 calls).speed := by
  induction calls generalizing s0 with
  | nil => exact h
  | cons c cs ih => exact ih _ (update_speed_nonneg s0 c.1 c.2)

/-- C3 witness: the initial state with a brake call and a drift call. -/
theorem speed_never_negative_witness :
    0 ≤ (VehicleSensors.start "CarA").speed ∧
    0 ≤ (runUpdates (VehicleSensors.start "CarA") [(true, 0), (false, 1/4)]).speed :=
  ⟨by decide, speed_never_negative (VehicleSensors.start "CarA") (by decide) _⟩

/-- C4: immediately after update(brake=true) the braking flag is true and
the acceleration is exactly -8.0; immediately after update(brake=false)
the braking flag is false and the acceleration is the drawn value, which
lies in the gentle-drift range [-0.5, 0.5] whenever the draw does (the
realized random.uniform(-0.5, 0.5) value always lies in that range). -/
theorem update_brake_state (s : VehicleSensors) (drift : ℚ) :
    (s.update true drift).braking = true ∧ (s.update true drift).accel = -8 ∧
    (-(1/2) ≤ drift → drift ≤ 1/2 →
      (s.update false drift).braking = false ∧
      -(1/2) ≤ (s.update false drift).accel ∧ (s.update false drift).accel ≤ 1/2) :=
  ⟨rfl, rfl, fun h1 h2 => ⟨rfl, h1, h2⟩⟩

/-- C4 witness: a concrete state and a concrete in-range draw. -/
theorem update_brake_state_witness :
    ((VehicleSensors.start "CarA").update true (1/4)).braking = true ∧
    ((VehicleSensors.start "CarA").update true (1/4)).accel = -8 ∧
    (((VehicleSensors.start "CarA").update false (1/4)).braking = false ∧
      -(1/2) ≤ ((VehicleSensors.start "CarA").update false (1/4)).accel ∧
      ((VehicleSensors.start "CarA").update false (1/4)).accel ≤ 1/2) := by
  have h := update_brake_state (VehicleSensors.start "CarA") (1/4)
  exact ⟨h.1, h.2.1, h.2.2 (by norm_num) (by norm_num)⟩

/-! Broadcast medium; models class OpticalChannel (queue.Queue as a FIFO
list, head at the front). -/

/-- models OpticalChannel.transmit: q.put appends the signal. -/
def transmit (ch : List (List ℚ)) (signal : List ℚ) : List (List ℚ) :=
  ch ++ [signal]

/-- models OpticalChannel.receive: q.get(timeout=0.1) removes and returns
the head signal when one is present, and returns None after the timeout on
an empty queue.  queue.Queue is thread-safe, so concurrent receive calls
serialize; two listeners receiving concurrently are modelled as two
sequential receive calls (the model is symmetric in which listener the
queue serves first). -/
def receive (ch : List (List ℚ)) : Option (List ℚ) × List (List ℚ) :=
  match ch with
  | [] => (none, [])
  | signal :: rest => (some signal, rest)

/-- C8: a transmitted signal is appended to the shared queue exactly once
(its multiplicity grows by exactly one), and against a single transmitted
signal, of two concurrently receiving listeners only the one served first
obtains the signal — the second receive call returns None.  Delivery is
work-stealing, not fan-out. -/
theorem single_delivery (ch : List (List ℚ)) (signal : List ℚ) :
    (transmit ch signal).count signal = ch.count signal + 1 ∧
    (receive (transmit [] signal)).1 = some signal ∧
    (receive ((receive (transmit [] signal)).2)).1 = none := by
  refine ⟨?_, rfl, rfl⟩
  simp [transmit]

/-! Decoded message values and parsing; models the listener's
ast.literal_eval + isinstance(msg, dict) step. -/

/-- Python value subset relevant to the dispatcher: strings and dicts
(string-keyed).  The dispatcher only ever compares values with string
literals and looks keys up, so no other shapes are needed. -/
inductive PyVal where
  | str : String → PyVal
  | dict : List (String × PyVal) → PyVal

/-- Single-quote character (written by code point to keep the source
text plain). -/
def quoteChar : Char := Char.ofNat 39

/-- Opening curly brace character. -/
def openBraceChar : Char := Char.ofNat 123

/-- Closing curly brace character. -/
def closeBraceChar : Char := Char.ofNat 125

/-- Scan the body of a single-quoted string literal up to the closing
quote; returns the body and the remaining input. -/
def scanStrGo : List Char → Option (List Char × List Char)
  | [] => none
  | c :: rest =>
    if c == quoteChar then some ([], rest)
    else
      match scanStrGo rest with
      | some (pre, rem) => some (c :: pre, rem)
      | none => none

/-- Parse one single-quoted string literal at the head of the input. -/
def parseStrLit : List Char → Option (String × List Char)
  | [] => none
  | c :: rest =>
    if c == quoteChar then
      match scanStrGo rest with
      | some (pre, rem) => some (String.mk pre, rem)
      | none => none
    else none

/-- Parse the entries of a dict literal body "'k': 'v', ... 'k': 'v'}"
(the canonical text str() produces), consuming the closing brace.  Fuel
bounds the number of entries; each entry consumes at least one character,
so fuel = input length always suffices. -/
def parseEntriesGo : ℕ → List Char → Option (List (String × PyVal) × List Char)
  | 0, _ => none
  | fuel + 1, cs =>
    match parseStrLit cs with
    | none => none
    | some (key, rest) =>
      match rest with
      | c1 :: c2 :: rest2 =>
        if c1 == ':' && c2 == ' ' then
          match parseStrLit rest2 with
          | none => none
          | some (v, rest3) =>
            match rest3 with
            | d :: rest4 =>
              if d == closeBraceChar then some ([(key, PyVal.str v)], rest4)
              else if d == ',' then
                match rest4 with
                | e :: rest5 =>
                  if e == ' ' then
                    match parseEntriesGo fuel rest5 with
                    | some (entries, rem) => some ((key, PyVal.str v) :: entries, rem)
                    | none => none
                  else none
                | [] => none
              else none
            | [] => none
        else none
      | _ => none

/-- Modelled from the spec: the listener "parses that text as an ad hoc
structured literal" with ast.literal_eval (Python standard library, not
part of src/), restricted to the literal shapes this system exchanges:
single-quoted string literals and non-empty dicts of single-quoted string
keys and values in canonical str() layout.  Any other text is a parse
failure (literal_eval raising, modelled as none). -/
def literalEvalModel (s : String) : Option PyVal :=
  match s.data with
  | [] => none
  | c :: rest =>
    if c == openBraceChar then
      match parseEntriesGo rest.length rest with
      | some (entries, []) => some (PyVal.dict entries)
      | _ => none
    else if c == quoteChar then
      match scanStrGo rest with
      | some (pre, []) => some (PyVal.str (String.mk pre))
      | _ => none
    else none

/-! Serialization; models Python str() applied to the dicts the source
builds.  str() writes dict entries in insertion order as {'k': v, ...},
and repr of an identifier-safe string is the string between single
quotes. -/

/-- Serialized form of the emergency dict {"from": name, "type":
"EMERGENCY_BRAKE"} built by Vehicle.broadcast when brake is set; models
str() of that dict for names whose repr is verbatim single-quoting. -/
def serializeEmergency (name : String) : String :=
  "\x7b\x27from\x27: \x27" ++ name ++ "\x27, \x27type\x27: \x27EMERGENCY_BRAKE\x27\x7d"

/-- Decimal-style rendering of a rational; a model of Python number repr
used only inside the STATUS serialization, which no theorem relies on. -/
def ratRepr (q : ℚ) : String :=
  if q.den = 1 then toString q.num ++ ".0"
  else toString q.num ++ "/" ++ toString q.den

/-- Rounding to two decimal places; models Python round(x, 2) (up to the
float-representation detail, which the rational model abstracts away). -/
def round2 (q : ℚ) : ℚ := (round (q * 100) : ℚ) / 100

/-- Serialized form of the STATUS dict built by read_data; models str()
of that dict (number rendering approximated by ratRepr; no theorem
depends on this string's exact shape). -/
def serializeStatus (s : VehicleSensors) (ts : ℚ) : String :=
  "\x7b\x27from\x27: \x27" ++ s.name ++ "\x27, \x27timestamp\x27: " ++ ratRepr ts
    ++ ", \x27speed_mps\x27: " ++ ratRepr (round2 s.speed)
    ++ ", \x27accel_mps2\x27: " ++ ratRepr (round2 s.accel)
    ++ ", \x27braking\x27: " ++ (if s.braking then "True" else "False")
    ++ ", \x27hazard\x27: \x27" ++ s.hazard
    ++ "\x27, \x27type\x27: \x27STATUS\x27\x7d"

/-- Message a broadcast serializes: the STATUS dict from read_data (with
the time.time() draw ts), or the replacement EMERGENCY_BRAKE dict. -/
inductive OutMsg where
  | status : VehicleSensors → ℚ → OutMsg
  | emergency : String → OutMsg

/-- Serialized text of an outgoing message; models str(msg). -/
def pyStr : OutMsg → String
  | OutMsg.status s ts => serializeStatus s ts
  | OutMsg.emergency name => serializeEmergency name

/-- Broadcast; models Vehicle.broadcast: update the sensors, build the
STATUS message from read_data (ts is the time.time() draw), replace it
with the EMERGENCY_BRAKE dict when brake is set (discarding the STATUS
dict, as the source does), encode str(msg) and transmit it.  Vehicle.name
and its sensors' name are the same string (both set from the constructor
argument), so the emergency dict's from field is the sensors' name. -/
def broadcast (brake : Bool) (drift ts : ℚ) (draws : ℕ → ℚ × ℚ)
    (v : VehicleSensors) (ch : List (List ℚ)) : VehicleSensors × List (List ℚ) :=
  let s := v.update brake drift
  let msg := if brake then OutMsg.emergency s.name else OutMsg.status s ts
  (s, transmit ch (encode_message (pyStr msg) draws))

/-- Emergency-brake reaction hook; models Vehicle.emergency_brake, which
re-enters broadcast(brake=true). -/
def emergency_brake (drift ts : ℚ) (draws : ℕ → ℚ × ℚ)
    (v : VehicleSensors) (ch : List (List ℚ)) : VehicleSensors × List (List ℚ) :=
  broadcast true drift ts draws v ch

/-- Lookup; models dict.get(k): the value of the last binding of k (dict
construction keeps the last duplicate), or None when absent. -/
def pyGet (entries : List (String × PyVal)) (k : String) : Option PyVal :=
  entries.foldl (fun acc p => if p.1 == k then some p.2 else acc) none

/-- Subscript; models msg[k]: the value, or a KeyError when absent. -/
def pyGetItem (entries : List (String × PyVal)) (k : String) : Except Unit PyVal :=
  match pyGet entries k with
  | some v => Except.ok v
  | none => Except.error ()

/-- Equality test between a dict.get result and a string literal; models
Python ==: None == str and dict == str are False, str == str compares
contents. -/
def isStrEq (o : Option PyVal) (t : String) : Bool :=
  match o with
  | some (PyVal.str s) => s == t
  | _ => false

/-- Dict accesses made by the STATUS print line of process_message: the
f-string evaluates msg['from'] and then msg['speed_mps'] before printing,
so a missing key raises KeyError there.  The print text itself is an
observability side effect outside the core (spec section 6). -/
def statusAccess (entries : List (String × PyVal)) : Except Unit Unit :=
  if isStrEq (pyGet entries "type") "STATUS" then
    match pyGetItem entries "from" with
    | Except.error e => Except.error e
    | Except.ok _ =>
      match pyGetItem entries "speed_mps" with
      | Except.error e => Except.error e
      | Except.ok _ => Except.ok ()
  else Except.ok ()

/-- Dispatcher; models VehicleReceiver.process_message for a listener
whose vehicle state is v and whose channel content is ch: the STATUS
branch only performs dict accesses and prints; the EMERGENCY_BRAKE branch
evaluates msg['from'] for its print line and then calls the vehicle's
emergency_brake (drift, ts, draws are the random draws that reaction
consumes).  An Except.error is an uncaught exception escaping to the
caller; no state is mutated before any raise (the only mutation happens
inside emergency_brake, the final action, which raises nothing). -/
def process_message (entries : List (String × PyVal)) (drift ts : ℚ)
    (draws : ℕ → ℚ × ℚ) (v : VehicleSensors) (ch : List (List ℚ)) :
    Except Unit (VehicleSensors × List (List ℚ)) :=
  match statusAccess entries with
  | Except.error e => Except.error e
  | Except.ok _ =>
    if isStrEq (pyGet entries "type") "EMERGENCY_BRAKE" then
      match pyGetItem entries "from" with
      | Except.error e => Except.error e
      | Except.ok _ => Except.ok (emergency_brake drift ts draws v ch)
    else Except.ok (v, ch)

/-- One iteration of the listener loop body; models VehicleReceiver.listen:
a None receive just continues; otherwise the signal is decoded, a falsy
(empty) decode is skipped, and the try block parses the text, dispatches
dict results, and swallows every exception (except: pass), leaving the
vehicle and channel untouched in every failure case.  The function is
total: no exception ever escapes an iteration, so the while-True loop
always proceeds to the next receive. -/
def listen_step (sig : Option (List ℚ)) (drift ts : ℚ) (draws : ℕ → ℚ × ℚ)
    (v : VehicleSensors) (ch : List (List ℚ)) : VehicleSensors × List (List ℚ) :=
  match sig with
  | none => (v, ch)
  | some signal =>
    let decoded := decode_message signal
    if decoded ≠ "" then
      match literalEvalModel decoded with
      | some (PyVal.dict entries) =>
        match process_message entries drift ts draws v ch with
        | Except.ok res => res
        | Except.error _ => (v, ch)
      | _ => (v, ch)
    else (v, ch)

/-! Parser facts. -/

theorem scanStrGo_append (pre rest : List Char) (h : quoteChar ∉ pre) :
    scanStrGo (pre ++ quoteChar :: rest) = some (pre, rest) := by
  induction pre with
  | nil => simp [scanStrGo]
  | cons c cs ih =>
    have hne : (c == quoteChar) = false := by
      have : c ≠ quoteChar := fun hc => h (by simp [hc])
      simpa using this
    have hcs : quoteChar ∉ cs := fun hc => h (by simp [hc])
    simp only [List.cons_append, scanStrGo, hne, Bool.false_eq_true, if_false,
      List.append_eq]
    rw [ih hcs]

theorem parseStrLit_append (pre rest : List Char) (h : quoteChar ∉ pre) :
    parseStrLit (quoteChar :: (pre ++ quoteChar :: rest)) = some (String.mk pre, rest) := by
  simp only [parseStrLit, beq_self_eq_true, if_true, scanStrGo_append pre rest h]

theorem literalEval_of_dict_data (s : String) (body : List Char)
    (entries : List (String × PyVal))
    (h : s.data = openBraceChar :: body)
    (hp : parseEntriesGo body.length body = some (entries, [])) :
    literalEvalModel s = some (PyVal.dict entries) := by
  unfold literalEvalModel
  rw [h]
  simp only [beq_self_eq_true, if_true, hp]

theorem parseEntriesGo_two (k1 v1 k2 v2 : List Char) (f : ℕ)
    (hk1 : quoteChar ∉ k1) (hv1 : quoteChar ∉ v1)
    (hk2 : quoteChar ∉ k2) (hv2 : quoteChar ∉ v2) :
    parseEntriesGo (f + 2)
      (quoteChar :: (k1 ++ quoteChar :: ':' :: ' ' :: quoteChar ::
        (v1 ++ quoteChar :: ',' :: ' ' :: quoteChar ::
          (k2 ++ quoteChar :: ':' :: ' ' :: quoteChar ::
            (v2 ++ quoteChar :: closeBraceChar :: [])))))
      = some ([(String.mk k1, PyVal.str (String.mk v1)),
               (String.mk k2, PyVal.str (String.mk v2))], []) := by
  have e4 := parseStrLit_append v2 (closeBraceChar :: []) hv2
  have e3 := parseStrLit_append k2
    (':' :: ' ' :: quoteChar :: (v2 ++ quoteChar :: closeBraceChar :: [])) hk2
  have e2 := parseStrLit_append v1
    (',' :: ' ' :: quoteChar :: (k2 ++ quoteChar :: ':' :: ' ' :: quoteChar ::
      (v2 ++ quoteChar :: closeBraceChar :: []))) hv1
  have e1 := parseStrLit_append k1
    (':' :: ' ' :: quoteChar :: (v1 ++ quoteChar :: ',' :: ' ' :: quoteChar ::
      (k2 ++ quoteChar :: ':' :: ' ' :: quoteChar ::
        (v2 ++ quoteChar :: closeBraceChar :: [])))) hk1
  have hcb : (',' == closeBraceChar) = false := by decide
  simp only [parseEntriesGo, e1, e2, e3, e4, beq_self_eq_true, Bool.and_self,
    if_true, hcb, Bool.false_eq_true, if_false]

theorem parseEntriesGo_two_fuel (k1 v1 k2 v2 : List Char) (s1 t1 s2 t2 : String) (fuel : ℕ)
    (hk1 : quoteChar ∉ k1) (hv1 : quoteChar ∉ v1)
    (hk2 : quoteChar ∉ k2) (hv2 : quoteChar ∉ v2)
    (hfuel : 2 ≤ fuel)
    (hs1 : String.mk k1 = s1) (ht1 : String.mk v1 = t1)
    (hs2 : String.mk k2 = s2) (ht2 : String.mk v2 = t2) :
    parseEntriesGo fuel
      (quoteChar :: (k1 ++ quoteChar :: ':' :: ' ' :: quoteChar ::
        (v1 ++ quoteChar :: ',' :: ' ' :: quoteChar ::
          (k2 ++ quoteChar :: ':' :: ' ' :: quoteChar ::
            (v2 ++ quoteChar :: closeBraceChar :: [])))))
      = some ([(s1, PyVal.str t1), (s2, PyVal.str t2)], []) := by
  obtain ⟨f, rfl⟩ : ∃ f, fuel = f + 2 := ⟨fuel - 2, by omega⟩
  rw [← hs1, ← ht1, ← hs2, ← ht2]
  exact parseEntriesGo_two k1 v1 k2 v2 f hk1 hv1 hk2 hv2

theorem serializeEmergency_data (name : String) :
    (serializeEmergency name).data
      = openBraceChar :: (quoteChar :: (('f' :: 'r' :: 'o' :: 'm' :: []) ++ quoteChar ::
          ':' :: ' ' :: quoteChar ::
          (name.data ++ quoteChar :: ',' :: ' ' :: quoteChar ::
            (('t' :: 'y' :: 'p' :: 'e' :: []) ++ quoteChar :: ':' :: ' ' :: quoteChar ::
              (('E' :: 'M' :: 'E' :: 'R' :: 'G' :: 'E' :: 'N' :: 'C' :: 'Y' :: '_' ::
                'B' :: 'R' :: 'A' :: 'K' :: 'E' :: []) ++ quoteChar ::
                closeBraceChar :: []))))) := by
  show (("\x7b\x27from\x27: \x27" ++ name) ++ "\x27, \x27type\x27: \x27EMERGENCY_BRAKE\x27\x7d").data = _
  rw [String.data_append, String.data_append, List.append_assoc]
  rfl

theorem serializeEmergency_toNat_lt (name : String)
    (h : ∀ c ∈ name.data, c.toNat < 256) :
    ∀ c ∈ (serializeEmergency name).data, c.toNat < 256 := by
  intro c hc
  have hsplit : (serializeEmergency name).data
      = "\x7b\x27from\x27: \x27".data
        ++ (name.data ++ "\x27, \x27type\x27: \x27EMERGENCY_BRAKE\x27\x7d".data) := by
    show (("\x7b\x27from\x27: \x27" ++ name) ++ "\x27, \x27type\x27: \x27EMERGENCY_BRAKE\x27\x7d").data = _
    rw [String.data_append, String.data_append, List.append_assoc]
  rw [hsplit] at hc
  rcases List.mem_append.mp hc with h1 | h2
  · have hall : ∀ x ∈ "\x7b\x27from\x27: \x27".data, x.toNat < 256 := by decide
    exact hall c h1
  · rcases List.mem_append.mp h2 with h3 | h4
    · exact h c h3
    · have hall : ∀ x ∈ "\x27, \x27type\x27: \x27EMERGENCY_BRAKE\x27\x7d".data, x.toNat < 256 := by
        decide
      exact hall c h4

theorem literalEval_serializeEmergency (name : String) (hq : quoteChar ∉ name.data) :
    literalEvalModel (serializeEmergency name)
      = some (PyVal.dict [("from", PyVal.str name),
                          ("type", PyVal.str "EMERGENCY_BRAKE")]) := by
  apply literalEval_of_dict_data _ _ _ (serializeEmergency_data name)
  apply parseEntriesGo_two_fuel _ _ _ _ _ _ _ _ _ (by decide) hq (by decide) (by decide)
    _ rfl (stringMk_data name) rfl rfl
  simp only [List.length_cons, List.length_append]
  omega

/-! Dispatch facts. -/

theorem update_braking_true (v : VehicleSensors) (drift : ℚ) :
    (v.update true drift).braking = true := rfl

theorem update_accel_neg8 (v : VehicleSensors) (drift : ℚ) :
    (v.update true drift).accel = -8 := rfl

theorem process_message_emergency (entries : List (String × PyVal)) (f : PyVal)
    (drift ts : ℚ) (draws : ℕ → ℚ × ℚ) (v : VehicleSensors) (ch : List (List ℚ))
    (htype : pyGet entries "type" = some (PyVal.str "EMERGENCY_BRAKE"))
    (hfrom : pyGet entries "from" = some f) :
    process_message entries drift ts draws v ch
      = Except.ok (v.update true drift,
          transmit ch (encode_message (serializeEmergency v.name) draws)) := by
  have h1 : ("EMERGENCY_BRAKE" == "STATUS") = false := by decide
  unfold process_message statusAccess pyGetItem
  rw [htype, hfrom]
  simp only [isStrEq, h1, Bool.false_eq_true, if_false, beq_self_eq_true, if_true]
  unfold emergency_brake broadcast
  simp only [if_true, pyStr, update_name_eq]

theorem process_message_missing_from (entries : List (String × PyVal))
    (drift ts : ℚ) (draws : ℕ → ℚ × ℚ) (v : VehicleSensors) (ch : List (List ℚ))
    (htype : pyGet entries "type" = some (PyVal.str "EMERGENCY_BRAKE"))
    (hfrom : pyGet entries "from" = none) :
    process_message entries drift ts draws v ch = Except.error () := by
  have h1 : ("EMERGENCY_BRAKE" == "STATUS") = false := by decide
  unfold process_message statusAccess pyGetItem
  rw [htype, hfrom]
  simp only [isStrEq, h1, Bool.false_eq_true, if_false, beq_self_eq_true, if_true]

theorem listen_step_dispatch (signal : List ℚ) (s : String)
    (entries : List (String × PyVal)) (drift ts : ℚ) (draws : ℕ → ℚ × ℚ)
    (v : VehicleSensors) (ch : List (List ℚ)) (res : VehicleSensors × List (List ℚ))
    (hdec : decode_message signal = s) (hne : s ≠ "")
    (hparse : literalEvalModel s = some (PyVal.dict entries))
    (hproc : process_message entries drift ts draws v ch = Except.ok res) :
    listen_step (some signal) drift ts draws v ch = res := by
  simp only [listen_step]
  rw [hdec, if_pos hne]
  simp only [hparse, hproc]

/-- C9: the dispatcher never compares a message's sender to the listening
vehicle's own name.  For every dict message carrying type EMERGENCY_BRAKE
and a 'from' binding with any value f whatsoever — in particular the
listener's own name — process_message invokes the listening vehicle's
emergency_brake(), so the vehicle brakes again (braking true, acceleration
-8.0) and re-broadcasts a further encoded EMERGENCY_BRAKE message under
its own name.  The conclusion does not mention f at all, which is the
"no self-check" property; the witness instantiates f with the listener's
own name, i.e. a vehicle receiving its own emergency broadcast. -/
theorem dispatch_ignores_sender (entries : List (String × PyVal)) (f : PyVal)
    (drift ts : ℚ) (draws : ℕ → ℚ × ℚ) (v : VehicleSensors) (ch : List (List ℚ))
    (htype : pyGet entries "type" = some (PyVal.str "EMERGENCY_BRAKE"))
    (hfrom : pyGet entries "from" = some f) :
    process_message entries drift ts draws v ch
      = Except.ok (v.update true drift,
          transmit ch (encode_message (serializeEmergency v.name) draws))
    ∧ (v.update true drift).braking = true ∧ (v.update true drift).accel = -8 :=
  ⟨process_message_emergency entries f drift ts draws v ch htype hfrom,
    update_braking_true v drift, update_accel_neg8 v drift⟩

/-- C9 witness: vehicle CarB's dispatcher handling an EMERGENCY_BRAKE dict
whose from field is CarB itself. -/
theorem dispatch_ignores_sender_witness :
    pyGet [("from", PyVal.str "CarB"), ("type", PyVal.str "EMERGENCY_BRAKE")] "type"
        = some (PyVal.str "EMERGENCY_BRAKE") ∧
    pyGet [("from", PyVal.str "CarB"), ("type", PyVal.str "EMERGENCY_BRAKE")] "from"
        = some (PyVal.str "CarB") ∧
    (process_message [("from", PyVal.str "CarB"), ("type", PyVal.str "EMERGENCY_BRAKE")]
        0 0 (fun _ => (0, 0)) (VehicleSensors.start "CarB") []
      = Except.ok ((VehicleSensors.start "CarB").update true 0,
          transmit [] (encode_message
            (serializeEmergency (VehicleSensors.start "CarB").name) (fun _ => (0, 0))))
      ∧ ((VehicleSensors.start "CarB").update true 0).braking = true
      ∧ ((VehicleSensors.start "CarB").update true 0).accel = -8) :=
  ⟨rfl, rfl,
    dispatch_ignores_sender _ (PyVal.str "CarB") 0 0 (fun _ => (0, 0))
      (VehicleSensors.start "CarB") [] rfl rfl⟩

/-- C1 (amended): the broadcast scenario.  Vehicle A's broadcast(brake=true)
transmits encode_message of serializeEmergency nameA; when listening
vehicle B's dispatcher is given that successfully decoded EMERGENCY_BRAKE
message (the classification hypothesis makes the decode succeed) — a
message which, coming from broadcast, carries a 'from' entry — B invokes
its own emergency_brake(), which re-enters broadcast(brake=true): B's
braking flag becomes true, its acceleration -8.0, and a new encoded
EMERGENCY_BRAKE message whose from field is B's own name is transmitted
onto the medium. -/
theorem emergency_brake_propagates (nameA : String) (sB : VehicleSensors)
    (ch : List (List ℚ)) (dA dB : ℕ → ℚ × ℚ) (drift ts : ℚ)
    (h256 : ∀ c ∈ nameA.data, c.toNat < 256)
    (hq : quoteChar ∉ nameA.data)
    (hclass : (encode_message (serializeEmergency nameA) dA).map classify
        = stringBits (serializeEmergency nameA)) :
    listen_step (some (encode_message (serializeEmergency nameA) dA)) drift ts dB sB ch
      = (sB.update true drift,
          transmit ch (encode_message (serializeEmergency sB.name) dB))
    ∧ (sB.update true drift).braking = true ∧ (sB.update true drift).accel = -8 := by
  refine ⟨?_, update_braking_true sB drift, update_accel_neg8 sB drift⟩
  have hdec : decode_message (encode_message (serializeEmergency nameA) dA)
      = serializeEmergency nameA :=
    decode_of_bits _ _ (serializeEmergency_toNat_lt nameA h256) hclass
  have hne : serializeEmergency nameA ≠ "" := by
    intro hemp
    have hd := congrArg String.data hemp
    rw [serializeEmergency_data nameA] at hd
    simp at hd
  exact listen_step_dispatch _ _ _ drift ts dB sB ch _ hdec hne
    (literalEval_serializeEmergency nameA hq)
    (process_message_emergency _ (PyVal.str nameA) drift ts dB sB ch rfl rfl)

/-- C1 witness: CarA broadcasts the emergency, CarB listens with
classification-faithful draws, brakes, and re-broadcasts under its own
name. -/
theorem emergency_brake_propagates_witness :
    ((∀ c ∈ "CarA".data, c.toNat < 256) ∧ quoteChar ∉ "CarA".data ∧
      (encode_message (serializeEmergency "CarA")
          (goodDraws (serializeEmergency "CarA"))).map classify
        = stringBits (serializeEmergency "CarA")) ∧
    (listen_step (some (encode_message (serializeEmergency "CarA")
          (goodDraws (serializeEmergency "CarA"))))
        0 0 (fun _ => (0, 0)) (VehicleSensors.start "CarB") []
      = ((VehicleSensors.start "CarB").update true 0,
          transmit [] (encode_message
            (serializeEmergency (VehicleSensors.start "CarB").name) (fun _ => (0, 0))))
      ∧ ((VehicleSensors.start "CarB").update true 0).braking = true
      ∧ ((VehicleSensors.start "CarB").update true 0).accel = -8) :=
  ⟨⟨by decide, by decide, by decide⟩,
    emergency_brake_propagates "CarA" (VehicleSensors.start "CarB") []
      (goodDraws (serializeEmergency "CarA")) (fun _ => (0, 0)) 0 0
      (by decide) (by decide) (by decide)⟩

/-- Serialized text of an EMERGENCY_BRAKE dict with no 'from' entry, as a
noisy channel can hand the listener. -/
def fromlessText : String := "\x7b\x27type\x27: \x27EMERGENCY_BRAKE\x27\x7d"

/-- Signal whose samples classify exactly to the bits of s (amplitude 2
for a 1 bit, 0 for a 0 bit). -/
def bitSignal (s : String) : List ℚ :=
  (stringBits s).map (fun b => if b then 2 else 0)

/-- C1 counterexample: a successfully decoded message of type
EMERGENCY_BRAKE that lacks a 'from' entry does NOT make the listener
brake.  The concrete signal decodes to the dict text, the text parses to
a dict whose type is EMERGENCY_BRAKE, yet the listener iteration leaves
the vehicle state and the channel unchanged (the dispatcher's print line
evaluates msg['from'] before emergency_brake is called, raises KeyError,
and the listener swallows it): braking stays false and nothing is
transmitted, so emergency_brake was never invoked. -/
theorem emergency_without_from_no_brake :
    decode_message (bitSignal fromlessText) = fromlessText ∧
    literalEvalModel fromlessText
      = some (PyVal.dict [("type", PyVal.str "EMERGENCY_BRAKE")]) ∧
    listen_step (some (bitSignal fromlessText)) 0 0 (fun _ => (0, 0))
        (VehicleSensors.start "CarB") []
      = (VehicleSensors.start "CarB", []) ∧
    (VehicleSensors.start "CarB").braking = false := by
  exact ⟨by decide, rfl, by decide, rfl⟩

/-- C6: one iteration of the listener loop body never propagates an
exception and never terminates the loop.  In every failure mode on a
received signal — decode failure (falsy decode), a parse failure of the
decoded text, a parse result that is not a dict, or an exception raised
while dispatching the message — the iteration silently returns with the
vehicle state and channel unchanged, and the (total) loop body proceeds
to the next receive call. -/
theorem listen_swallows (signal : List ℚ) (drift ts : ℚ) (draws : ℕ → ℚ × ℚ)
    (v : VehicleSensors) (ch : List (List ℚ))
    (h : decode_message signal = ""
      ∨ literalEvalModel (decode_message signal) = none
      ∨ (∃ s, literalEvalModel (decode_message signal) = some (PyVal.str s))
      ∨ (∃ entries, literalEvalModel (decode_message signal) = some (PyVal.dict entries)
          ∧ process_message entries drift ts draws v ch = Except.error ())) :
    listen_step (some signal) drift ts draws v ch = (v, ch) := by
  simp only [listen_step]
  rcases h with h | h | h | h
  · rw [h]
    simp
  · by_cases hd : decode_message signal = ""
    · rw [hd]
      simp
    · rw [if_pos hd, h]
  · obtain ⟨s, hs⟩ := h
    by_cases hd : decode_message signal = ""
    · rw [hd]
      simp
    · rw [if_pos hd, hs]
  · obtain ⟨entries, he, hp⟩ := h
    by_cases hd : decode_message signal = ""
    · rw [hd]
      simp
    · rw [if_pos hd, he]
      simp only [hp]

/-- C6 witness: the empty signal decodes to the falsy empty string and the
iteration leaves everything unchanged. -/
theorem listen_swallows_witness :
    (decode_message [] = ""
      ∨ literalEvalModel (decode_message []) = none
      ∨ (∃ s, literalEvalModel (decode_message []) = some (PyVal.str s))
      ∨ (∃ entries, literalEvalModel (decode_message []) = some (PyVal.dict entries)
          ∧ process_message entries 0 0 (fun _ => (0, 0)) (VehicleSensors.start "CarC") []
            = Except.error ())) ∧
    listen_step (some []) 0 0 (fun _ => (0, 0)) (VehicleSensors.start "CarC") []
      = (VehicleSensors.start "CarC", []) :=
  ⟨Or.inl rfl,
    listen_swallows [] 0 0 (fun _ => (0, 0)) (VehicleSensors.start "CarC") [] (Or.inl rfl)⟩
